import Mathlib

/-!
GoGet: chunk planning, fetching and assembling.

A shallow embedding of `internal/downloader` (files `downloader.go`,
`errors.go`, `utils.go`) and the properties of its chunk planner, its
error aggregation, its routing decision and its file-name derivation.

Conventions of the embedding:

* Go `int64` values are `Int`s; every `int64` operation of the source is
  followed by `wrap64`, the two's-complement wrap-around.
* Go `int` values (`concurrency`, the loop counter) are `Int`s as well; the
  only `int` operations of the source, `i++` under `i < concurrency` and
  `concurrency-1` under `1 ≤ concurrency`, cannot overflow.
* bytes are `UInt8`, a file's content is a `List UInt8`.
* `planChunks` is the planning step with `make` as the language defines it;
  `planChunksOn` is the same step on a runtime with its allocation limit,
  and the two agree whenever `make` returns a slice.
-/

namespace GoGet

/-! ## Machine integers -/

/-- Two's-complement wrap-around of a mathematical integer into `int64`. -/
def wrap64 (x : Int) : Int :=
  (x + 9223372036854775808) % 18446744073709551616 - 9223372036854775808

/-- Largest `int64`. -/
def maxInt64 : Int := 9223372036854775807

/-! ## Data model (`downloader.go`, lines 12-32) -/

/-- The type `Chunk` of `downloader.go`: an inclusive byte range. -/
structure Chunk where
  Start : Int
  End : Int
  deriving DecidableEq, Repr

/-- The type `Downloader` of `downloader.go`; the HTTP client is an external
collaborator and appears as an explicit argument where it is used. -/
structure Downloader where
  concurrency : Int
  deriving DecidableEq, Repr

/-- The function `New` of `downloader.go`: stores the concurrency level as given. -/
def New (concurrency : Int) : Downloader :=
  { concurrency := concurrency }

/-! ## The planning step of `downloadConcurrent` (lines 95-112) -/

/-- Run-time faults the planning step can raise: the panic of an integer
division by zero, the panic "makeslice: cap out of range", and the fatal
error "out of memory" of the allocator. -/
inductive RuntimeFault where
  | integerDivideByZero
  | makesliceCapOutOfRange
  | outOfMemory
  deriving DecidableEq, Repr

/-- The loop `for i := 0; i < d.concurrency; i++ { ... }` of lines 100-112,
unrolled over its remaining trip count `remaining = concurrency - i`.
Each execution of the body appends exactly one chunk (line 106) and then
either leaves through `break` (line 110) or goes on with `i+1`. -/
def planLoop (totalSize chunkSize concurrency : Int) : Nat → Int → Int → List Chunk
  | 0, _, _ => []
  | remaining + 1, i, start =>
    let end0 := wrap64 (wrap64 (start + chunkSize) - 1)
    let end1 := if i = concurrency - 1 then wrap64 (totalSize - 1) else end0
    let start1 := wrap64 (end1 + 1)
    if start1 ≥ totalSize then
      [{ Start := start, End := end1 }]
    else
      { Start := start, End := end1 } :: planLoop totalSize chunkSize concurrency remaining (i + 1) start1

/-- Lines 95-112 of `downloadConcurrent`: the division, the `make` and the
loop, with `make` as the Go language defines it: the division panics on a
zero divisor (line 95) and `make` panics on a negative capacity (line 96).
This is the plan the loop builds whenever `make` returns a slice; the limits
the runtime puts on the size of the allocation are those of `makeslice`, and
`planChunksOn` is the planning step with them. -/
def planChunks (d : Downloader) (totalSize : Int) : Except RuntimeFault (List Chunk) :=
  if d.concurrency = 0 then
    Except.error RuntimeFault.integerDivideByZero
  else
    let chunkSize := wrap64 (Int.tdiv totalSize d.concurrency)
    if d.concurrency < 0 then
      Except.error RuntimeFault.makesliceCapOutOfRange
    else
      Except.ok (planLoop totalSize chunkSize d.concurrency d.concurrency.toNat 0 0)


/-- What the planning step meets of the Go runtime it runs on: the constant
`maxAlloc` of the runtime, the largest size in bytes of one allocation
(`1 << 48` on linux/amd64), and whether the allocator obtains a block of a
given size in bytes from the operating system. -/
structure Runtime where
  maxAlloc : Int
  obtains : Int → Bool

/-- Size in bytes of a `Chunk`: two `int64` fields. -/
def chunkBytes : Int := 16

/-- The call `make([]Chunk, 0, cap)` of line 96, as `runtime.makeslice` runs
it where `uintptr` has 64 bits: with `mem = chunkBytes * cap` the check
`overflow || mem > maxAlloc || len < 0 || len > cap` (here `len = 0`) panics
with "makeslice: cap out of range", then the allocator either obtains the
`mem` bytes or stops the program with "out of memory". -/
def makeslice (rt : Runtime) (cap : Int) : Except RuntimeFault Unit :=
  if 18446744073709551616 ≤ chunkBytes * cap ∨ rt.maxAlloc < chunkBytes * cap ∨ cap < 0 then
    Except.error RuntimeFault.makesliceCapOutOfRange
  else if rt.obtains (chunkBytes * cap) = false then
    Except.error RuntimeFault.outOfMemory
  else
    Except.ok ()

/-- Lines 95-112 of `downloadConcurrent` on a given runtime: the division
(line 95), `make` through `makeslice` (line 96), and the loop. -/
def planChunksOn (rt : Runtime) (d : Downloader) (totalSize : Int) :
    Except RuntimeFault (List Chunk) :=
  if d.concurrency = 0 then
    Except.error RuntimeFault.integerDivideByZero
  else
    let chunkSize := wrap64 (Int.tdiv totalSize d.concurrency)
    match makeslice rt d.concurrency with
    | Except.error fault => Except.error fault
    | Except.ok _ =>
      Except.ok (planLoop totalSize chunkSize d.concurrency d.concurrency.toNat 0 0)

/-- The runtime of linux/amd64 (`maxAlloc = 1 << 48`) on a machine that
grants every block the runtime asks for. -/
def linuxAmd64 : Runtime where
  maxAlloc := 281474976710656
  obtains := fun _ => true

/-- Closed form of the chunk list: `concurrency - 1` chunks of `chunkSize`
bytes each, followed by the chunk that ends at `totalSize - 1`. -/
def closedForm (totalSize chunkSize : Int) (k n : Nat) : List Chunk :=
  (List.range' k n).map (fun (j : Nat) => ({ Start := (j : Int) * chunkSize, End := ((j : Int) + 1) * chunkSize - 1 } : Chunk))
    ++ [{ Start := ((k + n : Nat) : Int) * chunkSize, End := totalSize - 1 }]


/-! ## Errors (`errors.go`) -/

/-- The four package-level error values of `errors.go`.  Go compares them by
identity, so each is a constructor of its own. -/
inductive Sentinel where
  | ErrInvalidURL
  | ErrHTTPRequestFailed
  | ErrInvalidRangeSupport
  | ErrDownloadFailed
  deriving DecidableEq

/-- Go error values as the downloader builds them.
* `sentinel s`: one of the values of `errors.go`;
* `external msg`: an error made by `net/http`, `net/url`, `os` or `io`;
* `errorf msg`: `fmt.Errorf` with a format that has no `%w` verb;
* `wrapf msg inner`: `fmt.Errorf` with one `%w` verb, `Unwrap` gives `inner`. -/
inductive GoError where
  | sentinel (s : Sentinel)
  | external (msg : String)
  | errorf (msg : String)
  | wrapf (msg : String) (inner : GoError)
  deriving DecidableEq

/-- Texts of `errors.go`, lines 6-15. -/
def Sentinel.text : Sentinel → String
  | Sentinel.ErrInvalidURL => "invalid URL"
  | Sentinel.ErrHTTPRequestFailed => "HTTP request failed"
  | Sentinel.ErrInvalidRangeSupport => "server does not support range requests"
  | Sentinel.ErrDownloadFailed => "download failed"

/-- The method `Error()` of a Go error. -/
def GoError.Error : GoError → String
  | GoError.sentinel s => s.text
  | GoError.external msg => msg
  | GoError.errorf msg => msg
  | GoError.wrapf msg _ => msg

/-- Go's `errors.Is(err, target)` for a target of `errors.go`: walks the
`Unwrap` chain and compares by identity. -/
def errorsIs : GoError → Sentinel → Bool
  | GoError.sentinel s, target => decide (s = target)
  | GoError.external _, _ => false
  | GoError.errorf _, _ => false
  | GoError.wrapf _ inner, target => errorsIs inner target

/-- Go's `fmt.Errorf` with a format made of `before`, the verb `%w` and
`after`: the text of the result has the text of the wrapped error in place
of the verb. -/
def errorfW (before : String) (inner : GoError) (after : String) : GoError :=
  GoError.wrapf (before ++ inner.Error ++ after) inner

/-! ## HTTP and the output file -/

/-- What the downloader reads of an `http.Response`.  `Body` holds the bytes
the body delivers and `BodyErr` the read error that ends it, if any. -/
structure Response where
  StatusCode : Int
  ContentLength : Int
  Body : List UInt8
  BodyErr : Option GoError

/-- The four requests the downloader sends for its URL. -/
inductive Request where
  | head
  | headProbe
  | get
  | getRange (first last : Int)
  deriving DecidableEq

/-- The client `d.client` together with the server behind the URL: a request
gets a response or a transport error. -/
abbrev Client := Request → Except GoError Response

/-- The shared `*os.File`: the bytes of the file and the cursor of the handle. -/
structure OsFile where
  data : List UInt8
  offset : Nat
  deriving DecidableEq

/-- The file `os.Create` hands over: empty, cursor at 0. -/
def OsFile.empty : OsFile := { data := [], offset := 0 }

/-- Bytes of a file after writing the non-empty block `b` at byte `off`: a gap
between the old end of the file and `off` reads as zeros. -/
def writeAt (data : List UInt8) (off : Nat) (b : List UInt8) : List UInt8 :=
  (data ++ List.replicate (off - data.length) 0).take off ++ b ++ data.drop (off + b.length)

/-- The call `file.Seek(offset, 0)`: sets the cursor of the handle; a negative
offset is refused. -/
def OsFile.Seek (f : OsFile) (offset : Int) : Except GoError OsFile :=
  if offset < 0 then
    Except.error (GoError.external "seek: invalid argument")
  else
    Except.ok { f with offset := offset.toNat }

/-- The call `file.Write(b)`: writes at the cursor of the handle and advances
it.  An empty block leaves the file as it is. -/
def OsFile.Write (f : OsFile) (b : List UInt8) : OsFile :=
  if b = [] then f
  else { data := writeAt f.data f.offset b, offset := f.offset + b.length }

/-- The call `io.Copy(file, resp.Body)`: the bytes of the body go through
`Write`, a read error of the body is returned after them. -/
def ioCopy (f : OsFile) (resp : Response) : OsFile × Option GoError :=
  (f.Write resp.Body, resp.BodyErr)

/-! ## `downloadSingle` (lines 78-91) -/

/-- The method `downloadSingle`: one unranged GET copied into the file. -/
def downloadSingle (client : Client) (file : OsFile) : OsFile × Option GoError :=
  match client Request.get with
  | Except.error err =>
    (file, some (GoError.wrapf (Sentinel.ErrHTTPRequestFailed.text ++ ": " ++ err.Error)
      (GoError.sentinel Sentinel.ErrHTTPRequestFailed)))
  | Except.ok resp =>
    if resp.StatusCode ≠ 200 then
      (file, some (GoError.wrapf
        (Sentinel.ErrHTTPRequestFailed.text ++ ": status code " ++ toString resp.StatusCode)
        (GoError.sentinel Sentinel.ErrHTTPRequestFailed)))
    else
      ioCopy file resp

/-! ## The goroutine of `downloadConcurrent` (lines 121-157) -/

/-- The goroutine body for one chunk, run without interruption; the second
component is the value it sends on `errChan`.  `newRequest` is the outcome of
`http.NewRequest("GET", url, nil)`. -/
def fetchChunk (newRequest : Except GoError Unit) (client : Client) (c : Chunk)
    (file : OsFile) : OsFile × Option GoError :=
  match newRequest with
  | Except.error err => (file, some (errorfW "failed to create request: " err ""))
  | Except.ok _ =>
    match client (Request.getRange c.Start c.End) with
    | Except.error err => (file, some (errorfW "download failed: " err ""))
    | Except.ok resp =>
      if resp.StatusCode ≠ 206 then
        (file, some (GoError.errorf ("unexpected status code: " ++ toString resp.StatusCode)))
      else
        match file.Seek c.Start with
        | Except.error err => (file, some (errorfW "seek failed: " err ""))
        | Except.ok positioned =>
          match ioCopy positioned resp with
          | (written, some err) => (written, some (errorfW "failed to write chunk: " err ""))
          | (written, none) => (written, none)

/-- Where a goroutine stands: before its request, before `file.Seek`
(line 146), before `io.Copy` (line 151), or after its send on `errChan`. -/
inductive TaskState where
  | ready
  | responded (resp : Response)
  | positioned (resp : Response)
  | sent (outcome : Option GoError)

/-- One step of a goroutine on the shared file: the request with its status
check, the `Seek`, or the `io.Copy`. -/
def taskStep (newRequest : Except GoError Unit) (client : Client) (c : Chunk)
    (st : TaskState) (file : OsFile) : TaskState × OsFile :=
  match st with
  | TaskState.ready =>
    match newRequest with
    | Except.error err => (TaskState.sent (some (errorfW "failed to create request: " err "")), file)
    | Except.ok _ =>
      match client (Request.getRange c.Start c.End) with
      | Except.error err => (TaskState.sent (some (errorfW "download failed: " err "")), file)
      | Except.ok resp =>
        if resp.StatusCode ≠ 206 then
          (TaskState.sent (some (GoError.errorf
            ("unexpected status code: " ++ toString resp.StatusCode))), file)
        else (TaskState.responded resp, file)
  | TaskState.responded resp =>
    match file.Seek c.Start with
    | Except.error err => (TaskState.sent (some (errorfW "seek failed: " err "")), file)
    | Except.ok positioned => (TaskState.positioned resp, positioned)
  | TaskState.positioned resp =>
    match ioCopy file resp with
    | (written, some err) => (TaskState.sent (some (errorfW "failed to write chunk: " err "")), written)
    | (written, none) => (TaskState.sent none, written)
  | TaskState.sent outcome => (TaskState.sent outcome, file)

/-- Which of two goroutines takes the next step. -/
inductive Turn where
  | first
  | second
  deriving DecidableEq

/-- Two goroutines and the file they share. -/
structure TwoTasks where
  stateA : TaskState
  stateB : TaskState
  file : OsFile

/-- Two goroutines, for chunks `cA` and `cB`, stepping on the one file in the
order the schedule gives. -/
def interleave (newRequest : Except GoError Unit) (client : Client) (cA cB : Chunk) :
    List Turn → TwoTasks → TwoTasks
  | [], s => s
  | Turn.first :: rest, s =>
    let r := taskStep newRequest client cA s.stateA s.file
    interleave newRequest client cA cB rest { stateA := r.1, stateB := s.stateB, file := r.2 }
  | Turn.second :: rest, s =>
    let r := taskStep newRequest client cB s.stateB s.file
    interleave newRequest client cA cB rest { stateA := s.stateA, stateB := r.1, file := r.2 }

/-! ## `downloadConcurrent` (lines 94-174) -/

/-- The goroutines run one after the other, each to its end, in the given
order; the outcomes are listed in the order they are sent on `errChan`. -/
def runChunks (newRequest : Except GoError Unit) (client : Client) :
    List Chunk → OsFile → OsFile × List (Option GoError)
  | [], file => (file, [])
  | c :: rest, file =>
    let r := fetchChunk newRequest client c file
    let rs := runChunks newRequest client rest r.1
    (rs.1, r.2 :: rs.2)

/-- Lines 166-173: the loop over `errChan`.  The list holds the values in the
order they are received. -/
def collect : List (Option GoError) → Option GoError
  | [] => none
  | some err :: _ => some (errorfW "download failed: " err "")
  | none :: rest => collect rest

/-- The method `downloadConcurrent` with its goroutines run one after the other in the
order `order` makes of the planned chunks. -/
def downloadConcurrent (d : Downloader) (newRequest : Except GoError Unit) (client : Client)
    (order : List Chunk → List Chunk) (file : OsFile) (totalSize : Int) :
    Except RuntimeFault (OsFile × Option GoError) :=
  match planChunks d totalSize with
  | Except.error fault => Except.error fault
  | Except.ok chunks =>
    let r := runChunks newRequest client (order chunks) file
    Except.ok (r.1, collect r.2)

/-- The bytes `first` to `last` of a content. -/
def rangeBody (content : List UInt8) (first last : Int) : List UInt8 :=
  (content.drop first.toNat).take (last + 1 - first).toNat

/-- The server of the round-trip property: an unranged GET is answered with
status 200 and the whole content, a GET for `bytes=s-e` with status 206 and
the bytes `s` to `e` of the content. -/
def rangeServer (content : List UInt8) : Client
  | Request.head =>
    Except.ok { StatusCode := 200, ContentLength := content.length, Body := [], BodyErr := none }
  | Request.headProbe =>
    Except.ok { StatusCode := 206, ContentLength := 1, Body := [], BodyErr := none }
  | Request.get =>
    Except.ok { StatusCode := 200, ContentLength := content.length, Body := content,
                BodyErr := none }
  | Request.getRange s e =>
    Except.ok { StatusCode := 206, ContentLength := e + 1 - s,
                Body := rangeBody content s e, BodyErr := none }


/-! ## `utils.go` -/

/-- What the downloader reads of a parsed `url.URL`. -/
structure URL where
  Path : String

/-- The loop of `filepath.Base` that strips trailing separators, on the
length `n` of the part of the path still kept: the result is the length
that remains. -/
def stripTrailingSeparators (path : List Char) : Nat → Nat
  | 0 => 0
  | n + 1 => if path[n]? = some '/' then stripTrailingSeparators path n else n + 1

/-- The loop of `filepath.Base` that looks for the last separator, counting
`i` down from `n - 1`: the result is `i + 1`, the index where the last
element starts (0 when there is no separator). -/
def lastElementStart (path : List Char) : Nat → Nat
  | 0 => 0
  | i + 1 => if path[i]? = some '/' then i + 1 else lastElementStart path i

/-- The body of Go's `filepath.Base` on the characters of the path, where the
separator is `/` and there are no volume names. -/
def filepathBaseChars (path : List Char) : List Char :=
  if path = [] then ['.']
  else
    let stripped := path.take (stripTrailingSeparators path path.length)
    let element := stripped.drop (lastElementStart stripped stripped.length)
    if element = [] then ['/'] else element

/-- Go's `filepath.Base`. -/
def filepathBase (path : String) : String :=
  String.mk (filepathBaseChars path.data)

/-- The function `getFilenameFromURL` of `utils.go`; `urlParse` is Go's `url.Parse`. -/
def getFilenameFromURL (urlParse : String → Except GoError URL) (downloadURL : String) :
    Except GoError String :=
  match urlParse downloadURL with
  | Except.error err => Except.error err
  | Except.ok parsedURL =>
    let filename := filepathBase parsedURL.Path
    if filename = "/" ∨ filename = "." then Except.ok "index.html" else Except.ok filename

/-- The function `getContentLength` of `utils.go`. -/
def getContentLength (client : Client) : Except GoError Int :=
  match client Request.head with
  | Except.error err => Except.error err
  | Except.ok resp =>
    if resp.StatusCode ≠ 200 then Except.error (GoError.sentinel Sentinel.ErrHTTPRequestFailed)
    else Except.ok resp.ContentLength

/-- The function `isRangeSupported` of `utils.go`; `newRequest` is the outcome of
`http.NewRequest("HEAD", url, nil)`. -/
def isRangeSupported (newRequest : Except GoError Unit) (client : Client) :
    Except GoError Bool :=
  match newRequest with
  | Except.error err => Except.error err
  | Except.ok _ =>
    match client Request.headProbe with
    | Except.error err => Except.error err
    | Except.ok resp => Except.ok (decide (resp.StatusCode = 206))

/-! ## `Download` (lines 35-75) -/

/-- What `Download` needs of the world outside of the package. -/
structure World where
  newRequest : Except GoError Unit
  client : Client
  urlParse : String → Except GoError URL
  createOutputFile : String → Except GoError OsFile

/-- The tail call `Download` ends in: line 70 or line 74, with the
arguments of the call. -/
inductive Route where
  | single (file : OsFile)
  | concurrent (file : OsFile) (totalSize : Int)
  deriving DecidableEq

/-- The method `Download` up to its tail call: an error of lines 37-65, or the call of
line 70 or line 74. -/
def Download (_d : Downloader) (w : World) (url outputPath : String) : Except GoError Route :=
  match w.newRequest with
  | Except.error err =>
    Except.error (GoError.wrapf (Sentinel.ErrInvalidURL.text ++ ": " ++ err.Error)
      (GoError.sentinel Sentinel.ErrInvalidURL))
  | Except.ok _ =>
    match getContentLength w.client with
    | Except.error err => Except.error (errorfW "failed to get content length: " err "")
    | Except.ok totalSize =>
      match isRangeSupported w.newRequest w.client with
      | Except.error err => Except.error (errorfW "failed to check range support: " err "")
      | Except.ok rangeSupported =>
        let named : Except GoError String :=
          if outputPath = "" then
            match getFilenameFromURL w.urlParse url with
            | Except.error err =>
              Except.error (errorfW "failed to determine output filename: " err "")
            | Except.ok name => Except.ok name
          else Except.ok outputPath
        match named with
        | Except.error err => Except.error err
        | Except.ok path =>
          match w.createOutputFile path with
          | Except.error err => Except.error (errorfW "failed to create output file: " err "")
          | Except.ok file =>
            if !rangeSupported || totalSize < 1024 * 1024 then
              Except.ok (Route.single file)
            else
              Except.ok (Route.concurrent file totalSize)

/-- A world for examples: a range-capable server holding three bytes, a URL
with path `/y/file.txt`, a file system where every file can be created. -/
def sampleWorld : World where
  newRequest := Except.ok ()
  client := rangeServer [1, 2, 3]
  urlParse := fun _ => Except.ok { Path := "/y/file.txt" }
  createOutputFile := fun _ => Except.ok OsFile.empty

/-! ## Words of the specification -/

/-- The final segment of a path, in the words of the specification: what
follows the last `/`. -/
def finalSegment (path : String) : String :=
  String.mk (path.data.reverse.takeWhile (fun ch => ch ≠ '/')).reverse

/-- The derived file name as the specification words it: the default name
for the empty path and for the root, the final segment otherwise. -/
def specFilename (path : String) : String :=
  if path = "" ∨ path = "/" then "index.html" else finalSegment path

/-- The last element of a path once trailing separators are dropped, on the
characters of the path. -/
def lastElementChars (path : List Char) : List Char :=
  ((path.reverse.dropWhile (fun ch => ch = '/')).takeWhile (fun ch => ch ≠ '/')).reverse

/-- The last element of a path once trailing separators are dropped. -/
def lastElement (path : String) : String :=
  String.mk (lastElementChars path.data)


/-! ## Theorems -/

theorem wrap64_eq (x : Int) (h1 : -9223372036854775808 ≤ x) (h2 : x ≤ 9223372036854775807) :
    wrap64 x = x := by
  unfold wrap64
  omega

theorem planLoop_closedForm (totalSize chunkSize concurrency : Int)
    (hT : 0 < totalSize) (hmax : totalSize ≤ 9223372036854775807)
    (hcs : 0 ≤ chunkSize) (hmul : concurrency * chunkSize ≤ totalSize) :
    ∀ (n k : Nat), (k : Int) + n + 1 = concurrency →
      planLoop totalSize chunkSize concurrency (n + 1) k (k * chunkSize)
        = closedForm totalSize chunkSize k n := by
  intro n
  induction n with
  | zero =>
    intro k hk
    have hi : (k : Int) = concurrency - 1 := by omega
    have h1 : wrap64 (totalSize - 1) = totalSize - 1 := wrap64_eq _ (by omega) (by omega)
    have h2 : wrap64 (totalSize - 1 + 1) = totalSize := by
      rw [wrap64_eq _ (by omega) (by omega)]; omega
    simp [planLoop, closedForm, hi, h1, h2]
  | succ n ih =>
    intro k hk
    have hi : ¬ ((k : Int) = concurrency - 1) := by omega
    have hk1 : ((k : Int) + 1) * chunkSize ≤ (concurrency - 1) * chunkSize :=
      mul_le_mul_of_nonneg_right (by omega) hcs
    have hk0 : 0 ≤ (k : Int) * chunkSize := mul_nonneg (by omega) hcs
    have e1 : ((k : Int) + 1) * chunkSize = k * chunkSize + chunkSize := by ring
    have e2 : (concurrency - 1) * chunkSize = concurrency * chunkSize - chunkSize := by ring
    have h1 : wrap64 ((k : Int) * chunkSize + chunkSize) = k * chunkSize + chunkSize :=
      wrap64_eq _ (by omega) (by omega)
    have h2 : wrap64 ((k : Int) * chunkSize + chunkSize - 1) = k * chunkSize + chunkSize - 1 :=
      wrap64_eq _ (by omega) (by omega)
    have h3 : wrap64 ((k : Int) * chunkSize + chunkSize - 1 + 1) = k * chunkSize + chunkSize := by
      rw [wrap64_eq _ (by omega) (by omega)]; omega
    have hlt : ¬ (totalSize ≤ (k : Int) * chunkSize + chunkSize) := by
      rcases lt_or_ge 0 chunkSize with h | h
      · omega
      · have : chunkSize = 0 := by omega
        subst this
        simp
        omega
    have hih := ih (k + 1) (by push_cast; omega)
    rw [planLoop]
    simp only [hi, h1, h2, h3, if_false, ge_iff_le, hlt]
    have e3 : (((k + 1 : Nat) : Int)) * chunkSize = k * chunkSize + chunkSize := by push_cast; ring
    rw [e3] at hih
    have e4 : ((k : Int) + 1) = ((k + 1 : Nat) : Int) := by push_cast; rfl
    rw [e4, hih]
    simp [closedForm, List.range'_succ]
    constructor
    · ring
    · omega


theorem chunkSize_facts (totalSize concurrency : Int)
    (hT : 0 < totalSize) (hmax : totalSize ≤ 9223372036854775807) (hc : 1 ≤ concurrency) :
    wrap64 (Int.tdiv totalSize concurrency) = totalSize / concurrency
      ∧ 0 ≤ totalSize / concurrency
      ∧ concurrency * (totalSize / concurrency) ≤ totalSize
      ∧ totalSize / concurrency ≤ totalSize := by
  have hdiv : Int.tdiv totalSize concurrency = totalSize / concurrency :=
    Int.tdiv_eq_ediv (by omega) (by omega)
  have h0 : 0 ≤ totalSize / concurrency := Int.ediv_nonneg (by omega) (by omega)
  have h1 : concurrency * (totalSize / concurrency) ≤ totalSize :=
    Int.mul_ediv_self_le (by omega)
  have h2 : totalSize / concurrency ≤ totalSize := by
    have : 1 * (totalSize / concurrency) ≤ concurrency * (totalSize / concurrency) :=
      mul_le_mul_of_nonneg_right hc h0
    omega
  refine ⟨?_, h0, h1, h2⟩
  rw [hdiv]
  exact wrap64_eq _ (by omega) (by omega)

theorem planChunks_closedForm (totalSize concurrency : Int)
    (hT : 0 < totalSize) (hmax : totalSize ≤ 9223372036854775807) (hc : 1 ≤ concurrency) :
    planChunks (New concurrency) totalSize
      = Except.ok (closedForm totalSize (totalSize / concurrency) 0 (concurrency.toNat - 1)) := by
  obtain ⟨hcs, h0, h1, _⟩ := chunkSize_facts totalSize concurrency hT hmax hc
  have hne : ¬ concurrency = 0 := by omega
  have hneg : ¬ concurrency < 0 := by omega
  have hfuel : concurrency.toNat = (concurrency.toNat - 1) + 1 := by omega
  have hloop := planLoop_closedForm totalSize (totalSize / concurrency) concurrency hT hmax h0 h1
    (concurrency.toNat - 1) 0 (by omega)
  simp only [Nat.cast_zero, zero_mul] at hloop
  simp only [planChunks, New, hne, hneg, if_false, hcs]
  rw [← hloop, ← hfuel]


theorem closedForm_length (totalSize chunkSize : Int) (k n : Nat) :
    (closedForm totalSize chunkSize k n).length = n + 1 := by
  simp [closedForm]

theorem closedForm_getElem? (totalSize chunkSize : Int) (k n i : Nat) :
    (closedForm totalSize chunkSize k n)[i]? =
      if i < n then
        some { Start := ((k + i : Nat) : Int) * chunkSize,
               End := (((k + i : Nat) : Int) + 1) * chunkSize - 1 }
      else if i = n then
        some { Start := ((k + n : Nat) : Int) * chunkSize, End := totalSize - 1 }
      else none := by
  unfold closedForm
  rw [List.getElem?_append]
  simp only [List.length_map, List.length_range']
  by_cases h : i < n
  · simp [h, List.getElem?_range' k 1 h]
  · simp only [h, if_false]
    by_cases h2 : i = n
    · simp [h2]
    · have : i - n = (i - n - 1) + 1 := by omega
      rw [this]
      simp [h2]

theorem closedForm_mem (totalSize chunkSize : Int) (k n : Nat) (c : Chunk)
    (hmem : c ∈ closedForm totalSize chunkSize k n) :
    (∃ j : Nat, k ≤ j ∧ j < k + n ∧
        c = { Start := (j : Int) * chunkSize, End := ((j : Int) + 1) * chunkSize - 1 })
      ∨ c = { Start := ((k + n : Nat) : Int) * chunkSize, End := totalSize - 1 } := by
  simp only [closedForm, List.mem_append, List.mem_map, List.mem_range'_1, List.mem_singleton] at hmem
  rcases hmem with ⟨j, ⟨hj1, hj2⟩, rfl⟩ | h
  · exact Or.inl ⟨j, hj1, hj2, rfl⟩
  · exact Or.inr h


/-- C1: for `totalSize > 0` and `concurrency ≥ 1` the chunk list built by
`downloadConcurrent` starts at 0, every chunk ends right before the next one
starts, the last one ends at `totalSize - 1`, and there are at most
`concurrency` chunks. -/
theorem planChunks_contiguous_cover (totalSize concurrency : Int)
    (hT : 0 < totalSize) (hmax : totalSize ≤ maxInt64) (hc : 1 ≤ concurrency) :
    ∃ chunks : List Chunk,
      planChunks (New concurrency) totalSize = Except.ok chunks
      ∧ (∃ first, chunks[0]? = some first ∧ first.Start = 0)
      ∧ (∀ (i : Nat) (a b : Chunk),
            chunks[i]? = some a → chunks[i + 1]? = some b → a.End + 1 = b.Start)
      ∧ (∃ last, chunks[chunks.length - 1]? = some last ∧ last.End = totalSize - 1)
      ∧ (chunks.length : Int) ≤ concurrency := by
  have hmax1 : totalSize ≤ 9223372036854775807 := hmax
  refine ⟨_, planChunks_closedForm totalSize concurrency hT hmax1 hc, ?_, ?_, ?_, ?_⟩
  · rw [closedForm_getElem?]
    by_cases h : 0 < concurrency.toNat - 1
    · simp [h]
    · have h0 : concurrency.toNat - 1 = 0 := by omega
      simp [h0]
  · intro i a b ha hb
    rw [closedForm_getElem?] at ha hb
    split_ifs at hb with h1 h3
    · have h2 : i < concurrency.toNat - 1 := by omega
      simp only [h2, if_true, Option.some.injEq] at ha hb
      subst ha; subst hb
      simp only [Nat.zero_add]
      push_cast
      ring
    · have h2 : i < concurrency.toNat - 1 := by omega
      simp only [h2, if_true, Option.some.injEq] at ha hb
      subst ha; subst hb
      simp only [Nat.zero_add]
      rw [← h3]
      push_cast
      ring
  · refine ⟨{ Start := ((0 + (concurrency.toNat - 1) : Nat) : Int) * (totalSize / concurrency),
              End := totalSize - 1 }, ?_, rfl⟩
    rw [closedForm_length, closedForm_getElem?]
    simp
  · rw [closedForm_length]
    omega

theorem planChunks_contiguous_cover_witness :
    ∃ chunks : List Chunk,
      planChunks (New 4) 10 = Except.ok chunks
      ∧ (∃ first, chunks[0]? = some first ∧ first.Start = 0)
      ∧ (∀ (i : Nat) (a b : Chunk),
            chunks[i]? = some a → chunks[i + 1]? = some b → a.End + 1 = b.Start)
      ∧ (∃ last, chunks[chunks.length - 1]? = some last ∧ last.End = (10 : Int) - 1)
      ∧ (chunks.length : Int) ≤ 4 :=
  planChunks_contiguous_cover 10 4 (by decide) (by decide) (by decide)

/-- C2: for `1 ≤ concurrency ≤ totalSize` and `chunkSize = totalSize / concurrency`
(Go's truncated division) the plan has exactly `concurrency` chunks, chunk `i`
before the last is `[i*chunkSize, (i+1)*chunkSize - 1]`, the last chunk is
`[(concurrency-1)*chunkSize, totalSize-1]`; `totalSize = 10`, `concurrency = 4`
gives `[0-1],[2-3],[4-5],[6-9]`. -/
theorem planChunks_even_split (totalSize concurrency : Int)
    (hT : 0 < totalSize) (hmax : totalSize ≤ maxInt64)
    (hc : 1 ≤ concurrency) (_hle : concurrency ≤ totalSize) :
    (∃ chunks : List Chunk,
      planChunks (New concurrency) totalSize = Except.ok chunks
      ∧ (chunks.length : Int) = concurrency
      ∧ (∀ i : Nat, (i : Int) < concurrency - 1 →
          chunks[i]? = some { Start := (i : Int) * Int.tdiv totalSize concurrency,
                              End := ((i : Int) + 1) * Int.tdiv totalSize concurrency - 1 })
      ∧ chunks[(concurrency - 1).toNat]? =
          some { Start := (concurrency - 1) * Int.tdiv totalSize concurrency,
                 End := totalSize - 1 })
    ∧ planChunks (New 4) 10 = Except.ok [⟨0, 1⟩, ⟨2, 3⟩, ⟨4, 5⟩, ⟨6, 9⟩] := by
  have hmax1 : totalSize ≤ 9223372036854775807 := hmax
  have hdiv : Int.tdiv totalSize concurrency = totalSize / concurrency :=
    Int.tdiv_eq_ediv (by omega) (by omega)
  refine ⟨⟨_, planChunks_closedForm totalSize concurrency hT hmax1 hc, ?_, ?_, ?_⟩, rfl⟩
  · rw [closedForm_length]
    omega
  · intro i hi
    have h : i < concurrency.toNat - 1 := by omega
    rw [closedForm_getElem?, hdiv]
    simp [h]
  · have h : (concurrency - 1).toNat = concurrency.toNat - 1 := by omega
    have h2 : ((concurrency.toNat - 1 : Nat) : Int) = concurrency - 1 := by omega
    rw [closedForm_getElem?, hdiv, h]
    simp [h2]

theorem planChunks_even_split_witness :
    (∃ chunks : List Chunk,
      planChunks (New 3) 7 = Except.ok chunks
      ∧ (chunks.length : Int) = 3
      ∧ (∀ i : Nat, (i : Int) < 3 - 1 →
          chunks[i]? = some { Start := (i : Int) * Int.tdiv 7 3,
                              End := ((i : Int) + 1) * Int.tdiv 7 3 - 1 })
      ∧ chunks[((3 : Int) - 1).toNat]? =
          some { Start := (3 - 1) * Int.tdiv 7 3, End := 7 - 1 })
    ∧ planChunks (New 4) 10 = Except.ok [⟨0, 1⟩, ⟨2, 3⟩, ⟨4, 5⟩, ⟨6, 9⟩] :=
  planChunks_even_split 7 3 (by decide) (by decide) (by decide) (by decide)


/-- C3, on the code: with more workers than bytes (`chunkSize = 0`) the plan
is not the single chunk `[0, totalSize-1]`.  For `totalSize = 1048576` and
`concurrency = 1048577` it has 1048577 chunks and the first is `[0, -1]`;
for `totalSize = 2` and `concurrency = 3` it is `[0,-1], [0,-1], [0,1]`. -/
theorem planChunks_more_workers_than_bytes :
    (∃ chunks : List Chunk,
      planChunks (New 1048577) 1048576 = Except.ok chunks
      ∧ chunks.length = 1048577
      ∧ chunks[0]? = some { Start := 0, End := -1 })
    ∧ planChunks (New 3) 2 = Except.ok [⟨0, -1⟩, ⟨0, -1⟩, ⟨0, 1⟩] := by
  refine ⟨⟨_, planChunks_closedForm 1048576 1048577 (by decide) (by decide) (by decide), ?_, ?_⟩, rfl⟩
  · rw [closedForm_length]
    rfl
  · rw [closedForm_getElem?]
    have h : (0 : Nat) < (1048577 : Int).toNat - 1 := by decide
    have h2 : (1048576 : Int) / 1048577 = 0 := by decide
    simp [h, h2]

theorem planLoop_length_le (totalSize chunkSize concurrency : Int) :
    ∀ (n : Nat) (i start : Int),
      (planLoop totalSize chunkSize concurrency n i start).length ≤ n := by
  intro n
  induction n with
  | zero => intro i start; simp [planLoop]
  | succ n ih =>
    intro i start
    simp only [planLoop]
    split_ifs
    all_goals first
      | exact Nat.succ_le_succ (Nat.zero_le _)
      | exact Nat.succ_le_succ (ih _ _)

theorem planChunksOn_eq_planChunks (rt : Runtime) (d : Downloader) (totalSize : Int)
    (h1 : chunkBytes * d.concurrency < 18446744073709551616)
    (h2 : chunkBytes * d.concurrency ≤ rt.maxAlloc)
    (h3 : rt.obtains (chunkBytes * d.concurrency) = true) :
    planChunksOn rt d totalSize = planChunks d totalSize := by
  have e1 : ¬ (18446744073709551616 ≤ chunkBytes * d.concurrency) := by omega
  have e2 : ¬ (rt.maxAlloc < chunkBytes * d.concurrency) := by omega
  by_cases h0 : d.concurrency = 0
  · simp [planChunksOn, planChunks, h0]
  · by_cases hneg : d.concurrency < 0
    · simp [planChunksOn, planChunks, makeslice, h0, hneg]
    · simp [planChunksOn, planChunks, makeslice, h0, hneg, e1, e2, h3]

/-- C10 as the code has it: for every `totalSize` and every `concurrency` the
planning step of `downloadConcurrent` faults exactly when `concurrency ≤ 0`,
or 16 bytes per chunk times `concurrency` overflow `uintptr` or exceed the
runtime's `maxAlloc`, or the allocator does not obtain those bytes.  The
fault is the division panic for `concurrency = 0`, "makeslice: cap out of
range" for `concurrency < 0` and for a capacity over the limit, and "out of
memory" when the bytes are not obtained.  In every other case, that is for
`concurrency ≥ 1` within the limit and with the bytes obtained, it ends
without fault, and the loop body, which appends one chunk each time it runs,
has run at most `concurrency` times. -/
theorem planChunksOn_fault_iff (rt : Runtime) (totalSize concurrency : Int) :
    ((∃ fault, planChunksOn rt (New concurrency) totalSize = Except.error fault)
        ↔ (concurrency ≤ 0 ∨ 18446744073709551616 ≤ 16 * concurrency
            ∨ rt.maxAlloc < 16 * concurrency ∨ rt.obtains (16 * concurrency) = false))
    ∧ (concurrency = 0 →
        planChunksOn rt (New concurrency) totalSize
          = Except.error RuntimeFault.integerDivideByZero)
    ∧ (concurrency < 0 →
        planChunksOn rt (New concurrency) totalSize
          = Except.error RuntimeFault.makesliceCapOutOfRange)
    ∧ (1 ≤ concurrency →
        (18446744073709551616 ≤ 16 * concurrency ∨ rt.maxAlloc < 16 * concurrency) →
        planChunksOn rt (New concurrency) totalSize
          = Except.error RuntimeFault.makesliceCapOutOfRange)
    ∧ (1 ≤ concurrency → 16 * concurrency < 18446744073709551616 →
        16 * concurrency ≤ rt.maxAlloc → rt.obtains (16 * concurrency) = false →
        planChunksOn rt (New concurrency) totalSize = Except.error RuntimeFault.outOfMemory)
    ∧ (1 ≤ concurrency → 16 * concurrency < 18446744073709551616 →
        16 * concurrency ≤ rt.maxAlloc → rt.obtains (16 * concurrency) = true →
        ∃ chunks : List Chunk, planChunksOn rt (New concurrency) totalSize = Except.ok chunks
          ∧ (chunks.length : Int) ≤ concurrency) := by
  have hzero : concurrency = 0 →
      planChunksOn rt (New concurrency) totalSize
        = Except.error RuntimeFault.integerDivideByZero := by
    intro h
    simp [planChunksOn, New, h]
  have hneg : concurrency < 0 →
      planChunksOn rt (New concurrency) totalSize
        = Except.error RuntimeFault.makesliceCapOutOfRange := by
    intro h
    have h0 : ¬ concurrency = 0 := by omega
    simp [planChunksOn, makeslice, New, h, h0]
  have hcap : 1 ≤ concurrency →
      (18446744073709551616 ≤ 16 * concurrency ∨ rt.maxAlloc < 16 * concurrency) →
      planChunksOn rt (New concurrency) totalSize
        = Except.error RuntimeFault.makesliceCapOutOfRange := by
    intro h hlim
    have h0 : ¬ concurrency = 0 := by omega
    have hc : 18446744073709551616 ≤ chunkBytes * concurrency
        ∨ rt.maxAlloc < chunkBytes * concurrency ∨ concurrency < 0 := by
      rcases hlim with h1 | h1
      · exact Or.inl h1
      · exact Or.inr (Or.inl h1)
    simp only [planChunksOn, makeslice, New, h0, if_false, hc, if_true]
  have hoom : 1 ≤ concurrency → 16 * concurrency < 18446744073709551616 →
      16 * concurrency ≤ rt.maxAlloc → rt.obtains (16 * concurrency) = false →
      planChunksOn rt (New concurrency) totalSize = Except.error RuntimeFault.outOfMemory := by
    intro h h1 h2 h3
    have h0 : ¬ concurrency = 0 := by omega
    have hc : ¬ (18446744073709551616 ≤ chunkBytes * concurrency
        ∨ rt.maxAlloc < chunkBytes * concurrency ∨ concurrency < 0) := by
      simp only [chunkBytes]
      omega
    have h3b : rt.obtains (chunkBytes * concurrency) = false := h3
    simp only [planChunksOn, makeslice, New, h0, if_false, hc, h3b, if_true]
  have hok : 1 ≤ concurrency → 16 * concurrency < 18446744073709551616 →
      16 * concurrency ≤ rt.maxAlloc → rt.obtains (16 * concurrency) = true →
      ∃ chunks : List Chunk, planChunksOn rt (New concurrency) totalSize = Except.ok chunks
        ∧ (chunks.length : Int) ≤ concurrency := by
    intro h h1 h2 h3
    have h0 : ¬ concurrency = 0 := by omega
    have hc : ¬ (18446744073709551616 ≤ chunkBytes * concurrency
        ∨ rt.maxAlloc < chunkBytes * concurrency ∨ concurrency < 0) := by
      simp only [chunkBytes]
      omega
    have h3b : rt.obtains (chunkBytes * concurrency) = true := h3
    refine ⟨planLoop totalSize (wrap64 (Int.tdiv totalSize concurrency)) concurrency
      concurrency.toNat 0 0, ?_, ?_⟩
    · simp [planChunksOn, makeslice, New, h0, hc, h3b]
    · have := planLoop_length_le totalSize (wrap64 (Int.tdiv totalSize concurrency)) concurrency
        concurrency.toNat 0 0
      omega
  refine ⟨⟨?_, ?_⟩, hzero, hneg, hcap, hoom, hok⟩
  · rintro ⟨fault, hf⟩
    by_contra hc
    have hc1 : 1 ≤ concurrency := by omega
    have hc2 : 16 * concurrency < 18446744073709551616 := by omega
    have hc3 : 16 * concurrency ≤ rt.maxAlloc := by omega
    have hc4 : rt.obtains (16 * concurrency) = true := by
      cases hb : rt.obtains (16 * concurrency) with
      | true => rfl
      | false => exact absurd (Or.inr (Or.inr (Or.inr hb))) hc
    obtain ⟨chunks, hchunks, _⟩ := hok hc1 hc2 hc3 hc4
    rw [hchunks] at hf
    cases hf
  · intro h
    by_cases h0 : concurrency = 0
    · exact ⟨_, hzero h0⟩
    · by_cases hn : concurrency < 0
      · exact ⟨_, hneg hn⟩
      · have hc1 : 1 ≤ concurrency := by omega
        by_cases hlim : 18446744073709551616 ≤ 16 * concurrency ∨ rt.maxAlloc < 16 * concurrency
        · exact ⟨_, hcap hc1 hlim⟩
        · have hb : rt.obtains (16 * concurrency) = false := by
            rcases h with h | h | h | h
            · omega
            · exact absurd (Or.inl h) hlim
            · exact absurd (Or.inr h) hlim
            · exact h
          exact ⟨_, hoom hc1 (by omega) (by omega) hb⟩

theorem planChunksOn_fault_iff_witness :
    ((∃ fault, planChunksOn linuxAmd64 (New 4) 10 = Except.error fault)
        ↔ ((4 : Int) ≤ 0 ∨ 18446744073709551616 ≤ 16 * (4 : Int)
            ∨ linuxAmd64.maxAlloc < 16 * (4 : Int) ∨ linuxAmd64.obtains (16 * (4 : Int)) = false))
    ∧ ((4 : Int) = 0 →
        planChunksOn linuxAmd64 (New 4) 10 = Except.error RuntimeFault.integerDivideByZero)
    ∧ ((4 : Int) < 0 →
        planChunksOn linuxAmd64 (New 4) 10 = Except.error RuntimeFault.makesliceCapOutOfRange)
    ∧ ((1 : Int) ≤ 4 →
        (18446744073709551616 ≤ 16 * (4 : Int) ∨ linuxAmd64.maxAlloc < 16 * (4 : Int)) →
        planChunksOn linuxAmd64 (New 4) 10 = Except.error RuntimeFault.makesliceCapOutOfRange)
    ∧ ((1 : Int) ≤ 4 → 16 * (4 : Int) < 18446744073709551616 →
        16 * (4 : Int) ≤ linuxAmd64.maxAlloc → linuxAmd64.obtains (16 * (4 : Int)) = false →
        planChunksOn linuxAmd64 (New 4) 10 = Except.error RuntimeFault.outOfMemory)
    ∧ ((1 : Int) ≤ 4 → 16 * (4 : Int) < 18446744073709551616 →
        16 * (4 : Int) ≤ linuxAmd64.maxAlloc → linuxAmd64.obtains (16 * (4 : Int)) = true →
        ∃ chunks : List Chunk, planChunksOn linuxAmd64 (New 4) 10 = Except.ok chunks
          ∧ (chunks.length : Int) ≤ 4) :=
  planChunksOn_fault_iff linuxAmd64 10 4

/-- C10 as the claim words it fails: on linux/amd64 with all memory granted,
`concurrency = 9223372036854775807` (`goget -c 9223372036854775807`, on a
resource of 1048576 bytes) is at least 1 and the planning step faults at
`make` with "makeslice: cap out of range"; so it is not the case that the
planning step faults exactly when `concurrency ≤ 0`. -/
theorem planChunksOn_huge_capacity :
    planChunksOn linuxAmd64 (New 9223372036854775807) 1048576
        = Except.error RuntimeFault.makesliceCapOutOfRange
    ∧ ¬ ((∃ fault, planChunksOn linuxAmd64 (New 9223372036854775807) 1048576
            = Except.error fault) ↔ (9223372036854775807 : Int) ≤ 0) := by
  have h : planChunksOn linuxAmd64 (New 9223372036854775807) 1048576
      = Except.error RuntimeFault.makesliceCapOutOfRange := by rfl
  refine ⟨h, ?_⟩
  intro hiff
  have := hiff.mp ⟨_, h⟩
  omega

/-- C6: the loop over `errChan` returns nil exactly when every outcome
received is nil; when an outcome is a failure, it returns the first failure
in the order of reception, wrapped with the text "download failed: ". -/
theorem collect_first_failure (outcomes : List (Option GoError)) :
    (collect outcomes = none ↔ ∀ o ∈ outcomes, o = none)
    ∧ (∀ (received : List (Option GoError)) (err : GoError) (rest : List (Option GoError)),
        outcomes = received ++ some err :: rest → (∀ o ∈ received, o = none) →
          collect outcomes = some (GoError.wrapf ("download failed: " ++ err.Error) err)) := by
  constructor
  · induction outcomes with
    | nil => simp [collect]
    | cons o rest ih =>
      cases o with
      | none => simp [collect, ih]
      | some err => simp [collect]
  · intro received
    induction received generalizing outcomes with
    | nil =>
      intro err rest h _
      subst h
      simp [collect, errorfW]
    | cons o received ih =>
      intro err rest h hall
      subst h
      have ho : o = none := hall o (List.mem_cons_self _ _)
      subst ho
      simp only [List.cons_append, collect]
      exact ih _ err rest rfl (fun o ho => hall o (List.mem_cons_of_mem _ ho))

theorem collect_first_failure_witness :
    (collect [none, some (GoError.errorf "unexpected status code: 500"), none] = none ↔
      ∀ o ∈ [none, some (GoError.errorf "unexpected status code: 500"), none], o = none)
    ∧ (∀ (received : List (Option GoError)) (err : GoError) (rest : List (Option GoError)),
        [none, some (GoError.errorf "unexpected status code: 500"), none]
            = received ++ some err :: rest → (∀ o ∈ received, o = none) →
          collect [none, some (GoError.errorf "unexpected status code: 500"), none]
            = some (GoError.wrapf ("download failed: " ++ err.Error) err)) :=
  collect_first_failure [none, some (GoError.errorf "unexpected status code: 500"), none]

/-- C7, on the code: a chunk answered with status 500, and a chunk whose
request meets a transport error, both end in an error that is not
`ErrHTTPRequestFailed` under `errors.Is`, also after the wrapping of line
169; `downloadSingle` on the same answers does give `ErrHTTPRequestFailed`. -/
theorem fetchChunk_failure_is_not_ErrHTTPRequestFailed :
    let status500 : Client := fun _ =>
      Except.ok { StatusCode := 500, ContentLength := 0, Body := [], BodyErr := none }
    let refused : Client := fun _ => Except.error (GoError.external "connection refused")
    let chunk : Chunk := { Start := 0, End := 524287 }
    (fetchChunk (Except.ok ()) status500 chunk OsFile.empty).2
        = some (GoError.errorf "unexpected status code: 500")
    ∧ (fetchChunk (Except.ok ()) refused chunk OsFile.empty).2
        = some (GoError.wrapf "download failed: connection refused"
            (GoError.external "connection refused"))
    ∧ (∀ err, collect [(fetchChunk (Except.ok ()) status500 chunk OsFile.empty).2] = some err →
        errorsIs err Sentinel.ErrHTTPRequestFailed = false)
    ∧ (∀ err, collect [(fetchChunk (Except.ok ()) refused chunk OsFile.empty).2] = some err →
        errorsIs err Sentinel.ErrHTTPRequestFailed = false)
    ∧ (∀ err, (downloadSingle status500 OsFile.empty).2 = some err →
        errorsIs err Sentinel.ErrHTTPRequestFailed = true)
    ∧ (∀ err, (downloadSingle refused OsFile.empty).2 = some err →
        errorsIs err Sentinel.ErrHTTPRequestFailed = true) := by
  refine ⟨by decide, by decide, ?_, ?_, ?_, ?_⟩
  · intro err h
    simp only [fetchChunk, collect, errorfW, Option.some.injEq] at h
    subst h
    rfl
  · intro err h
    simp only [fetchChunk, collect, errorfW, Option.some.injEq] at h
    subst h
    rfl
  · intro err h
    cases h
    rfl
  · intro err h
    cases h
    rfl

/-- C5: once the two probes, the choice of the output path and the creation
of the file have succeeded, `Download` ends in `downloadSingle` exactly when
the range probe reported no support or `totalSize < 1048576`, and in
`downloadConcurrent` exactly when range support is present and
`totalSize ≥ 1048576`, whatever the concurrency; the range probe reports
support exactly when its answer has status 206. -/
theorem Download_route (d : Downloader) (w : World) (url outputPath path : String)
    (totalSize : Int) (rangeSupported : Bool) (file : OsFile)
    (hreq : w.newRequest = Except.ok ())
    (hsize : getContentLength w.client = Except.ok totalSize)
    (hrange : isRangeSupported w.newRequest w.client = Except.ok rangeSupported)
    (hpath : (if outputPath = "" then getFilenameFromURL w.urlParse url
              else Except.ok outputPath) = Except.ok path)
    (hfile : w.createOutputFile path = Except.ok file) :
    (Download d w url outputPath = Except.ok (Route.single file)
        ↔ (rangeSupported = false ∨ totalSize < 1048576))
    ∧ (Download d w url outputPath = Except.ok (Route.concurrent file totalSize)
        ↔ (rangeSupported = true ∧ 1048576 ≤ totalSize))
    ∧ (∀ resp, w.client Request.headProbe = Except.ok resp →
        (rangeSupported = true ↔ resp.StatusCode = 206)) := by
  have hnamed : (if outputPath = "" then
        (match getFilenameFromURL w.urlParse url with
          | Except.error err =>
            (Except.error (errorfW "failed to determine output filename: " err "") :
              Except GoError String)
          | Except.ok name => Except.ok name)
        else Except.ok outputPath) = Except.ok path := by
    by_cases h : outputPath = ""
    · simp only [h, if_true] at hpath ⊢
      rw [hpath]
    · simp only [h, if_false] at hpath ⊢
      exact hpath
  have hdl : Download d w url outputPath =
      if (!rangeSupported || decide (totalSize < 1024 * 1024)) = true then
        Except.ok (Route.single file)
      else Except.ok (Route.concurrent file totalSize) := by
    unfold Download
    rw [hrange, hsize, hreq]
    simp only [hnamed, hfile]
  refine ⟨?_, ?_, ?_⟩
  · rw [hdl]
    cases rangeSupported <;> by_cases h : totalSize < 1048576 <;> simp [h]
  · rw [hdl]
    cases rangeSupported <;> by_cases h : totalSize < 1048576 <;> simp [h]
    all_goals omega
  · intro resp hresp
    simp only [isRangeSupported, hreq, hresp, Except.ok.injEq] at hrange
    rw [← hrange]
    simp

theorem Download_route_witness :
    (Download (New 4) sampleWorld "https://x/y/file.txt" ""
        = Except.ok (Route.single OsFile.empty)
        ↔ (true = false ∨ (3 : Int) < 1048576))
    ∧ (Download (New 4) sampleWorld "https://x/y/file.txt" ""
        = Except.ok (Route.concurrent OsFile.empty 3)
        ↔ (true = true ∧ (1048576 : Int) ≤ 3))
    ∧ (∀ resp, sampleWorld.client Request.headProbe = Except.ok resp →
        (true = true ↔ resp.StatusCode = 206)) :=
  Download_route (New 4) sampleWorld "https://x/y/file.txt" "" "file.txt"
    3 true OsFile.empty rfl rfl rfl rfl rfl

theorem stripTrailingSeparators_spec (p : List Char) :
    ∀ n, n ≤ p.length →
      p.take (stripTrailingSeparators p n)
        = ((p.take n).reverse.dropWhile (fun ch => ch = '/')).reverse := by
  intro n
  induction n with
  | zero => intro _; simp [stripTrailingSeparators]
  | succ n ih =>
    intro hn
    have hlt : n < p.length := by omega
    have hget : p[n]? = some p[n] := List.getElem?_eq_getElem hlt
    have htake : p.take (n + 1) = p.take n ++ [p[n]] := by
      rw [List.take_succ, hget]; rfl
    rw [stripTrailingSeparators, hget, htake]
    by_cases hc : p[n] = '/'
    · simp only [hc, if_true]
      rw [ih (by omega)]
      simp [List.dropWhile_cons]
    · have hc2 : ¬ (some p[n] = some '/') := by simpa using hc
      simp only [hc2, if_false]
      rw [htake]
      generalize List.take n p = t
      generalize p[n] = x at hc
      simp [List.dropWhile_cons, hc]

theorem lastElementStart_le (q : List Char) : ∀ n, lastElementStart q n ≤ n := by
  intro n
  induction n with
  | zero => simp [lastElementStart]
  | succ n ih =>
    rw [lastElementStart]
    split_ifs
    · exact le_refl _
    · omega

theorem lastElementStart_spec (q : List Char) :
    ∀ n, n ≤ q.length →
      (q.take n).drop (lastElementStart q n)
        = ((q.take n).reverse.takeWhile (fun ch => ch ≠ '/')).reverse := by
  intro n
  induction n with
  | zero => intro _; simp [lastElementStart]
  | succ n ih =>
    intro hn
    have hlt : n < q.length := by omega
    have hget : q[n]? = some q[n] := List.getElem?_eq_getElem hlt
    have htake : q.take (n + 1) = q.take n ++ [q[n]] := by
      rw [List.take_succ, hget]; rfl
    have hlen : (q.take n).length = n := by simp; omega
    rw [lastElementStart, hget, htake]
    by_cases hc : q[n] = '/'
    · simp only [hc, if_true]
      have : (q.take n ++ ['/']).length = n + 1 := by simp [hlen]
      rw [List.drop_of_length_le (by omega)]
      simp [List.takeWhile_cons]
    · have hc2 : ¬ (some q[n] = some '/') := by simpa using hc
      simp only [hc2, if_false]
      have hle := lastElementStart_le q n
      rw [List.drop_append_of_le_length (by omega), ih (by omega)]
      generalize List.take n q = t
      generalize q[n] = x at hc
      simp [List.takeWhile_cons, hc]

theorem filepathBaseChars_eq (p : List Char) :
    filepathBaseChars p =
      if p = [] then ['.']
      else if lastElementChars p = [] then ['/'] else lastElementChars p := by
  have h1 := stripTrailingSeparators_spec p p.length (le_refl _)
  rw [List.take_length] at h1
  have h2 := lastElementStart_spec
    (p.reverse.dropWhile (fun ch => ch = '/')).reverse
    (p.reverse.dropWhile (fun ch => ch = '/')).reverse.length (le_refl _)
  rw [List.take_length, List.reverse_reverse] at h2
  unfold filepathBaseChars lastElementChars
  simp only [h1, h2]

theorem lastElementChars_no_separator (p : List Char) : '/' ∉ lastElementChars p := by
  intro h
  unfold lastElementChars at h
  rw [List.mem_reverse] at h
  have := List.mem_takeWhile_imp h
  simp at this

theorem lastElementChars_nil : lastElementChars [] = [] := by
  simp [lastElementChars]

theorem filename_of_path (path : String) :
    (if filepathBase path = "/" ∨ filepathBase path = "." then "index.html"
      else filepathBase path)
    = (if lastElement path = "" ∨ lastElement path = "." then "index.html"
        else lastElement path) := by
  have k1 : ∀ l : List Char, String.mk l = "/" ↔ l = ['/'] := fun l =>
    ⟨fun h => congrArg String.data h, fun h => by rw [h]⟩
  have k2 : ∀ l : List Char, String.mk l = "." ↔ l = ['.'] := fun l =>
    ⟨fun h => congrArg String.data h, fun h => by rw [h]⟩
  have k3 : ∀ l : List Char, String.mk l = "" ↔ l = [] := fun l =>
    ⟨fun h => congrArg String.data h, fun h => by rw [h]⟩
  have hsep := lastElementChars_no_separator path.data
  unfold filepathBase lastElement
  rw [filepathBaseChars_eq]
  by_cases hp : path.data = []
  · simp only [hp, if_true, lastElementChars_nil, k1, k2, k3]
    simp
  · by_cases hl : lastElementChars path.data = []
    · simp only [hp, hl, if_true, if_false, k1, k2, k3]
      simp
    · have hne : ¬ lastElementChars path.data = ['/'] := by
        intro h
        rw [h] at hsep
        simp at hsep
      simp only [hp, hl, hne, if_false, k1, k2, k3, false_or]

/-- C9 as the code has it: `getFilenameFromURL` fails exactly when the URL does
not parse, with the error of the parser; for a URL that parses it returns the
last element of the path once trailing slashes are dropped, and "index.html"
when there is no such element (empty path, root, slashes only) or when that
element is "."; the path `/y/file.txt` gives "file.txt", the empty path and
the root give "index.html". -/
theorem getFilenameFromURL_spec (urlParse : String → Except GoError URL)
    (downloadURL : String) :
    (∀ err, urlParse downloadURL = Except.error err →
        getFilenameFromURL urlParse downloadURL = Except.error err)
    ∧ (∀ u, urlParse downloadURL = Except.ok u →
        getFilenameFromURL urlParse downloadURL
          = Except.ok (if lastElement u.Path = "" ∨ lastElement u.Path = "." then "index.html"
                        else lastElement u.Path))
    ∧ (∀ u, urlParse downloadURL = Except.ok u → u.Path = "/y/file.txt" →
        getFilenameFromURL urlParse downloadURL = Except.ok "file.txt")
    ∧ (∀ u, urlParse downloadURL = Except.ok u → (u.Path = "" ∨ u.Path = "/") →
        getFilenameFromURL urlParse downloadURL = Except.ok "index.html")
    ∧ ((∃ err, getFilenameFromURL urlParse downloadURL = Except.error err)
        ↔ ∃ err, urlParse downloadURL = Except.error err) := by
  have hok : ∀ u, urlParse downloadURL = Except.ok u →
      getFilenameFromURL urlParse downloadURL
        = Except.ok (if lastElement u.Path = "" ∨ lastElement u.Path = "." then "index.html"
                      else lastElement u.Path) := by
    intro u hu
    rw [← filename_of_path]
    simp only [getFilenameFromURL, hu]
    split_ifs <;> rfl
  have herr : ∀ err, urlParse downloadURL = Except.error err →
      getFilenameFromURL urlParse downloadURL = Except.error err := by
    intro err he
    simp only [getFilenameFromURL, he]
  refine ⟨herr, hok, ?_, ?_, ?_⟩
  · intro u hu hpath
    rw [hok u hu, hpath]
    rfl
  · intro u hu hpath
    rw [hok u hu]
    rcases hpath with h | h <;> rw [h] <;> rfl
  · constructor
    · rintro ⟨err, he⟩
      cases hparse : urlParse downloadURL with
      | error e => exact ⟨e, rfl⟩
      | ok u =>
        rw [hok u hparse] at he
        cases he
    · rintro ⟨err, he⟩
      exact ⟨err, herr err he⟩

theorem getFilenameFromURL_spec_witness :
    (∀ err, sampleWorld.urlParse "https://x/y/file.txt" = Except.error err →
        getFilenameFromURL sampleWorld.urlParse "https://x/y/file.txt" = Except.error err)
    ∧ (∀ u, sampleWorld.urlParse "https://x/y/file.txt" = Except.ok u →
        getFilenameFromURL sampleWorld.urlParse "https://x/y/file.txt"
          = Except.ok (if lastElement u.Path = "" ∨ lastElement u.Path = "." then "index.html"
                        else lastElement u.Path))
    ∧ (∀ u, sampleWorld.urlParse "https://x/y/file.txt" = Except.ok u →
        u.Path = "/y/file.txt" →
        getFilenameFromURL sampleWorld.urlParse "https://x/y/file.txt" = Except.ok "file.txt")
    ∧ (∀ u, sampleWorld.urlParse "https://x/y/file.txt" = Except.ok u →
        (u.Path = "" ∨ u.Path = "/") →
        getFilenameFromURL sampleWorld.urlParse "https://x/y/file.txt"
          = Except.ok "index.html")
    ∧ ((∃ err, getFilenameFromURL sampleWorld.urlParse "https://x/y/file.txt"
          = Except.error err)
        ↔ ∃ err, sampleWorld.urlParse "https://x/y/file.txt" = Except.error err) :=
  getFilenameFromURL_spec sampleWorld.urlParse "https://x/y/file.txt"

/-- C9 as the claim words it fails: the URL `https://x/y/.` parses to the path
`/y/.`, which is neither empty nor the root and whose final segment is ".",
and the code returns "index.html". -/
theorem getFilenameFromURL_dot_segment :
    ¬ (∀ (urlParse : String → Except GoError URL) (downloadURL : String) (u : URL),
        urlParse downloadURL = Except.ok u →
          getFilenameFromURL urlParse downloadURL = Except.ok (specFilename u.Path)) := by
  intro h
  have h1 := h (fun _ => Except.ok { Path := "/y/." }) "https://x/y/." { Path := "/y/." } rfl
  have h2 : getFilenameFromURL (fun _ => Except.ok { Path := "/y/." }) "https://x/y/."
      = Except.ok "index.html" := rfl
  have h3 : specFilename "/y/." = "." := by decide
  rw [h2, h3] at h1
  exact absurd (Except.ok.inj h1) (by decide)

theorem writeAt_empty (off : Nat) (b : List UInt8) :
    writeAt [] off b = List.replicate off 0 ++ b := by
  simp [writeAt]

theorem writeAt_end (data b : List UInt8) :
    writeAt data data.length b = data ++ b := by
  simp [writeAt]

/-- C8, on the code: two goroutines whose requests are answered with status
206 and non-empty bodies, scheduled so that both `Seek` calls come before the
two `io.Copy` calls, both report success, and the file holds `cB.Start` zero
bytes, then the body of the first chunk, then the body of the second: the
body of chunk `cA` starts at offset `cB.Start`, not at `cA.Start`. -/
theorem interleaved_seek_then_copy (client : Client) (cA cB : Chunk) (rA rB : Response)
    (hA : client (Request.getRange cA.Start cA.End) = Except.ok rA)
    (hB : client (Request.getRange cB.Start cB.End) = Except.ok rB)
    (hsA : rA.StatusCode = 206) (hsB : rB.StatusCode = 206)
    (hposA : 0 ≤ cA.Start) (hposB : 0 ≤ cB.Start)
    (hbodyA : rA.Body ≠ []) (hbodyB : rB.Body ≠ [])
    (herrA : rA.BodyErr = none) (herrB : rB.BodyErr = none) :
    interleave (Except.ok ()) client cA cB
        [Turn.first, Turn.second, Turn.first, Turn.second, Turn.first, Turn.second]
        { stateA := TaskState.ready, stateB := TaskState.ready, file := OsFile.empty }
      = { stateA := TaskState.sent none, stateB := TaskState.sent none,
          file := { data := List.replicate cB.Start.toNat 0 ++ rA.Body ++ rB.Body,
                    offset := cB.Start.toNat + rA.Body.length + rB.Body.length } } := by
  have hnA : ¬ cA.Start < 0 := by omega
  have hnB : ¬ cB.Start < 0 := by omega
  have hlen : (List.replicate cB.Start.toNat (0 : UInt8) ++ rA.Body).length
      = cB.Start.toNat + rA.Body.length := by simp
  have hw := writeAt_end (List.replicate cB.Start.toNat (0 : UInt8) ++ rA.Body) rB.Body
  rw [hlen] at hw
  simp only [interleave, taskStep, hA, hB, hsA, hsB, ne_eq, not_true_eq_false, if_false,
    OsFile.Seek, hnA, hnB, OsFile.empty, ioCopy, OsFile.Write, hbodyA, hbodyB, herrA, herrB,
    writeAt_empty, hw]

theorem interleaved_seek_then_copy_witness :
    interleave (Except.ok ()) (rangeServer [1, 2, 3, 4]) { Start := 0, End := 1 }
        { Start := 2, End := 3 }
        [Turn.first, Turn.second, Turn.first, Turn.second, Turn.first, Turn.second]
        { stateA := TaskState.ready, stateB := TaskState.ready, file := OsFile.empty }
      = { stateA := TaskState.sent none, stateB := TaskState.sent none,
          file := { data := List.replicate (2 : Int).toNat 0
                      ++ (Response.mk 206 2 [1, 2] none).Body
                      ++ (Response.mk 206 2 [3, 4] none).Body,
                    offset := (2 : Int).toNat + (Response.mk 206 2 [1, 2] none).Body.length
                      + (Response.mk 206 2 [3, 4] none).Body.length } } :=
  interleaved_seek_then_copy (rangeServer [1, 2, 3, 4]) { Start := 0, End := 1 }
    { Start := 2, End := 3 } (Response.mk 206 2 [1, 2] none) (Response.mk 206 2 [3, 4] none)
    rfl rfl rfl rfl (by decide) (by decide) (by decide) (by decide) rfl rfl

theorem writeAt_length (data : List UInt8) (off : Nat) (b : List UInt8) :
    (writeAt data off b).length = max (off + b.length) data.length := by
  simp only [writeAt, List.length_append, List.length_take, List.length_replicate,
    List.length_drop]
  omega

theorem writeAt_getElem?_inside (data : List UInt8) (off : Nat) (b : List UInt8) (p : Nat)
    (h1 : off ≤ p) (h2 : p < off + b.length) :
    (writeAt data off b)[p]? = b[p - off]? := by
  have hA : ((data ++ List.replicate (off - data.length) (0 : UInt8)).take off).length = off := by
    simp only [List.length_take, List.length_append, List.length_replicate]
    omega
  unfold writeAt
  rw [List.append_assoc, List.getElem?_append_right (by omega), hA,
    List.getElem?_append_left (by omega)]

theorem writeAt_getElem?_outside (data : List UInt8) (off : Nat) (b : List UInt8) (p : Nat)
    (h1 : p < data.length) (h2 : p < off ∨ off + b.length ≤ p) :
    (writeAt data off b)[p]? = data[p]? := by
  have hA : ((data ++ List.replicate (off - data.length) (0 : UInt8)).take off).length = off := by
    simp only [List.length_take, List.length_append, List.length_replicate]
    omega
  unfold writeAt
  rcases h2 with h2 | h2
  · rw [List.append_assoc, List.getElem?_append_left (by omega), List.getElem?_take_of_lt h2,
      List.getElem?_append_left h1]
  · rw [List.append_assoc, List.getElem?_append_right (by omega), hA,
      List.getElem?_append_right (by omega), List.getElem?_drop]
    congr 1
    omega

theorem fetchChunk_rangeServer (content : List UInt8) (c : Chunk) (file : OsFile)
    (hs : 0 ≤ c.Start) :
    fetchChunk (Except.ok ()) (rangeServer content) c file
      = (OsFile.Write { data := file.data, offset := c.Start.toNat }
          (rangeBody content c.Start c.End), none) := by
  have h : ¬ c.Start < 0 := by omega
  simp [fetchChunk, rangeServer, OsFile.Seek, ioCopy, h]

theorem rangeBody_length (content : List UInt8) (first last : Int)
    (hl : last < content.length) (hf : 0 ≤ first) :
    (rangeBody content first last).length = (last + 1 - first).toNat := by
  simp only [rangeBody, List.length_take, List.length_drop]
  omega

theorem rangeBody_getElem? (content : List UInt8) (first last : Int) (j : Nat)
    (hj : j < (last + 1 - first).toNat) :
    (rangeBody content first last)[j]? = content[first.toNat + j]? := by
  simp only [rangeBody]
  rw [List.getElem?_take_of_lt hj, List.getElem?_drop]

theorem fetchChunk_rangeServer_step (content : List UInt8) (c : Chunk) (file : OsFile)
    (hs : 0 ≤ c.Start) (he : c.End < content.length)
    (hlen : file.data.length ≤ content.length) :
    (fetchChunk (Except.ok ()) (rangeServer content) c file).2 = none
    ∧ (fetchChunk (Except.ok ()) (rangeServer content) c file).1.data.length ≤ content.length
    ∧ (∀ p : Nat, c.Start ≤ p → (p : Int) ≤ c.End →
        (fetchChunk (Except.ok ()) (rangeServer content) c file).1.data[p]? = content[p]?)
    ∧ (∀ p : Nat, file.data[p]? = content[p]? →
        (fetchChunk (Except.ok ()) (rangeServer content) c file).1.data[p]? = content[p]?) := by
  rw [fetchChunk_rangeServer content c file hs]
  have hbl := rangeBody_length content c.Start c.End he hs
  by_cases hb : rangeBody content c.Start c.End = []
  · have hz : (c.End + 1 - c.Start).toNat = 0 := by
      rw [← hbl, hb]; rfl
    simp only [OsFile.Write, hb, if_true]
    refine ⟨trivial, hlen, ?_, fun p h => h⟩
    intro p h1 h2
    omega
  · have hpos : 0 < (rangeBody content c.Start c.End).length := List.length_pos.mpr hb
    simp only [OsFile.Write, hb, if_false]
    have hcov : ∀ p : Nat, c.Start ≤ p → (p : Int) ≤ c.End →
        (writeAt file.data c.Start.toNat (rangeBody content c.Start c.End))[p]? = content[p]? := by
      intro p h1 h2
      rw [writeAt_getElem?_inside _ _ _ _ (by omega) (by omega),
        rangeBody_getElem? _ _ _ _ (by omega)]
      congr 1
      omega
    have hle : (writeAt file.data c.Start.toNat (rangeBody content c.Start c.End)).length
        ≤ content.length := by
      rw [writeAt_length]
      omega
    refine ⟨trivial, hle, hcov, ?_⟩
    intro p hp
    by_cases hin : c.Start ≤ p ∧ (p : Int) ≤ c.End
    · exact hcov p hin.1 hin.2
    · by_cases hpl : p < file.data.length
      · rw [writeAt_getElem?_outside _ _ _ _ hpl (by omega)]
        exact hp
      · have h1 : file.data[p]? = none := List.getElem?_eq_none (by omega)
        rw [h1] at hp
        have h2 : content.length ≤ p := List.getElem?_eq_none_iff.mp hp.symm
        rw [← hp]
        exact List.getElem?_eq_none (by omega)

theorem runChunks_rangeServer (content : List UInt8) :
    ∀ (l : List Chunk) (file : OsFile),
      (∀ c ∈ l, 0 ≤ c.Start ∧ c.End < content.length) →
      file.data.length ≤ content.length →
      (∀ o ∈ (runChunks (Except.ok ()) (rangeServer content) l file).2, o = none)
      ∧ (runChunks (Except.ok ()) (rangeServer content) l file).1.data.length ≤ content.length
      ∧ (∀ c ∈ l, ∀ p : Nat, c.Start ≤ p → (p : Int) ≤ c.End →
          (runChunks (Except.ok ()) (rangeServer content) l file).1.data[p]? = content[p]?)
      ∧ (∀ p : Nat, file.data[p]? = content[p]? →
          (runChunks (Except.ok ()) (rangeServer content) l file).1.data[p]? = content[p]?) := by
  intro l
  induction l with
  | nil =>
    intro file _ hlen
    simp only [runChunks]
    exact ⟨by simp, hlen, by simp, fun p h => h⟩
  | cons c rest ih =>
    intro file hb hlen
    obtain ⟨hc1, hc2⟩ := hb c (List.mem_cons_self _ _)
    obtain ⟨s1, s2, s3, s4⟩ := fetchChunk_rangeServer_step content c file hc1 hc2 hlen
    obtain ⟨r1, r2, r3, r4⟩ := ih (fetchChunk (Except.ok ()) (rangeServer content) c file).1
      (fun d hd => hb d (List.mem_cons_of_mem _ hd)) s2
    simp only [runChunks]
    refine ⟨?_, r2, ?_, ?_⟩
    · intro o ho
      rcases List.mem_cons.mp ho with h | h
      · rw [h]; exact s1
      · exact r1 o h
    · intro d hd p h1 h2
      rcases List.mem_cons.mp hd with h | h
      · subst h
        exact r4 p (s3 p h1 h2)
      · exact r3 d h p h1 h2
    · intro p hp
      exact r4 p (s4 p hp)

theorem collect_of_all_none :
    ∀ outcomes : List (Option GoError), (∀ o ∈ outcomes, o = none) → collect outcomes = none := by
  intro outcomes
  induction outcomes with
  | nil => intro _; rfl
  | cons o rest ih =>
    intro h
    have ho : o = none := h o (List.mem_cons_self _ _)
    subst ho
    simp only [collect]
    exact ih (fun o ho => h o (List.mem_cons_of_mem _ ho))

theorem closedForm_inBounds (totalSize chunkSize concurrency : Int)
    (hc : 1 ≤ concurrency)
    (hcs : 0 ≤ chunkSize) (hmul : concurrency * chunkSize ≤ totalSize) :
    ∀ c ∈ closedForm totalSize chunkSize 0 (concurrency.toNat - 1),
      0 ≤ c.Start ∧ c.End < totalSize := by
  intro c hmem
  rcases closedForm_mem _ _ _ _ c hmem with ⟨j, _, hj, rfl⟩ | rfl
  · have h1 : 0 ≤ (j : Int) * chunkSize := mul_nonneg (by omega) hcs
    have h2 : ((j : Int) + 1) * chunkSize ≤ concurrency * chunkSize :=
      mul_le_mul_of_nonneg_right (by omega) hcs
    exact ⟨h1, by show ((j : Int) + 1) * chunkSize - 1 < totalSize; omega⟩
  · have h1 : 0 ≤ ((0 + (concurrency.toNat - 1) : Nat) : Int) * chunkSize :=
      mul_nonneg (by omega) hcs
    exact ⟨h1, by show totalSize - 1 < totalSize; omega⟩

theorem closedForm_covers (totalSize chunkSize : Int) (n : Nat)
    (hcs : 0 ≤ chunkSize) (p : Nat) (hp : (p : Int) < totalSize) :
    ∃ c ∈ closedForm totalSize chunkSize 0 n, c.Start ≤ p ∧ (p : Int) ≤ c.End := by
  by_cases hlast : (n : Int) * chunkSize ≤ p
  · refine ⟨{ Start := ((0 + n : Nat) : Int) * chunkSize, End := totalSize - 1 }, ?_, ?_, ?_⟩
    · simp [closedForm]
    · show ((0 + n : Nat) : Int) * chunkSize ≤ p
      simpa using hlast
    · show (p : Int) ≤ totalSize - 1
      omega
  · have hlt : (p : Int) < n * chunkSize := by omega
    have hcpos : 0 < chunkSize := by
      rcases lt_or_eq_of_le hcs with h | h
      · exact h
      · rw [← h] at hlt; simp at hlt; omega
    have hq0 : 0 ≤ (p : Int) / chunkSize := Int.ediv_nonneg (by omega) hcs
    have hq1 : (p : Int) / chunkSize * chunkSize ≤ p := Int.ediv_mul_le _ (by omega)
    have hq2 : (p : Int) < ((p : Int) / chunkSize + 1) * chunkSize :=
      Int.lt_ediv_add_one_mul_self _ hcpos
    have hq3 : (p : Int) / chunkSize < n := Int.ediv_lt_of_lt_mul hcpos hlt
    have hj : (((p : Int) / chunkSize).toNat : Int) = (p : Int) / chunkSize :=
      Int.toNat_of_nonneg hq0
    refine ⟨{ Start := (((p : Int) / chunkSize).toNat : Int) * chunkSize,
              End := ((((p : Int) / chunkSize).toNat : Int) + 1) * chunkSize - 1 }, ?_, ?_, ?_⟩
    · simp only [closedForm, List.mem_append, List.mem_map, List.mem_range'_1]
      exact Or.inl ⟨((p : Int) / chunkSize).toNat, ⟨by omega, by omega⟩, rfl⟩
    · show (((p : Int) / chunkSize).toNat : Int) * chunkSize ≤ p
      rw [hj]; exact hq1
    · show (p : Int) ≤ ((((p : Int) / chunkSize).toNat : Int) + 1) * chunkSize - 1
      rw [hj]; omega

/-- C4: for a content of `totalSize > 0` bytes and `concurrency ≥ 1`, against
the server that answers an unranged GET with the whole content and a GET for
`bytes=s-e` with the bytes `s` to `e` of it, `downloadConcurrent` with its
chunks applied one after the other in any order to the empty file succeeds
and leaves a file equal to the content, and so does `downloadSingle`: the
two files are the same. -/
theorem downloadConcurrent_eq_downloadSingle (content : List UInt8) (concurrency : Int)
    (order : List Chunk → List Chunk)
    (hT : 0 < content.length) (hmax : (content.length : Int) ≤ maxInt64)
    (hc : 1 ≤ concurrency) (horder : ∀ l, (order l).Perm l) :
    ∃ multi : OsFile,
      downloadConcurrent (New concurrency) (Except.ok ()) (rangeServer content) order
          OsFile.empty content.length = Except.ok (multi, none)
      ∧ downloadSingle (rangeServer content) OsFile.empty
          = ((downloadSingle (rangeServer content) OsFile.empty).1, none)
      ∧ multi.data = (downloadSingle (rangeServer content) OsFile.empty).1.data
      ∧ multi.data = content := by
  have hT1 : (0 : Int) < content.length := by omega
  have hmax1 : (content.length : Int) ≤ 9223372036854775807 := hmax
  obtain ⟨_, h0, h1, _⟩ := chunkSize_facts content.length concurrency hT1 hmax1 hc
  have hplan := planChunks_closedForm content.length concurrency hT1 hmax1 hc
  have hperm := horder
    (closedForm content.length ((content.length : Int) / concurrency) 0 (concurrency.toNat - 1))
  have hbounds : ∀ c ∈ order (closedForm content.length ((content.length : Int) / concurrency) 0
      (concurrency.toNat - 1)), 0 ≤ c.Start ∧ c.End < content.length := by
    intro c hmem
    exact closedForm_inBounds content.length _ concurrency hc h0 h1 c (hperm.mem_iff.mp hmem)
  obtain ⟨r1, r2, r3, _⟩ := runChunks_rangeServer content _ OsFile.empty hbounds
    (by simp [OsFile.empty])
  have hdata : (runChunks (Except.ok ()) (rangeServer content)
      (order (closedForm content.length ((content.length : Int) / concurrency) 0
        (concurrency.toNat - 1))) OsFile.empty).1.data = content := by
    apply List.ext_getElem?
    intro p
    by_cases hp : p < content.length
    · obtain ⟨c, hmem, hc1, hc2⟩ := closedForm_covers content.length
        ((content.length : Int) / concurrency) (concurrency.toNat - 1) h0 p (by omega)
      exact r3 c (hperm.mem_iff.mpr hmem) p hc1 hc2
    · rw [List.getElem?_eq_none (by omega), List.getElem?_eq_none (by omega)]
  have hsingle : downloadSingle (rangeServer content) OsFile.empty
      = ({ data := content, offset := content.length }, none) := by
    have hne : ¬ content = [] := by
      intro h
      rw [h] at hT
      simp at hT
    simp [downloadSingle, rangeServer, ioCopy, OsFile.Write, OsFile.empty, hne, writeAt_empty]
  refine ⟨_, ?_, ?_, ?_, hdata⟩
  · simp only [downloadConcurrent, hplan]
    rw [collect_of_all_none _ r1]
  · rw [hsingle]
  · rw [hdata, hsingle]

theorem downloadConcurrent_eq_downloadSingle_witness :
    ∃ multi : OsFile,
      downloadConcurrent (New 4) (Except.ok ()) (rangeServer [10, 20, 30, 40, 50, 60, 70])
          List.reverse OsFile.empty
          ([10, 20, 30, 40, 50, 60, 70] : List UInt8).length = Except.ok (multi, none)
      ∧ downloadSingle (rangeServer [10, 20, 30, 40, 50, 60, 70]) OsFile.empty
          = ((downloadSingle (rangeServer [10, 20, 30, 40, 50, 60, 70]) OsFile.empty).1, none)
      ∧ multi.data
          = (downloadSingle (rangeServer [10, 20, 30, 40, 50, 60, 70]) OsFile.empty).1.data
      ∧ multi.data = [10, 20, 30, 40, 50, 60, 70] :=
  downloadConcurrent_eq_downloadSingle [10, 20, 30, 40, 50, 60, 70] 4 List.reverse
    (by decide) (by decide) (by decide) (fun l => List.reverse_perm l)

theorem taskStep_run_eq_fetchChunk (newRequest : Except GoError Unit) (client : Client)
    (c : Chunk) (file : OsFile) :
    taskStep newRequest client c
        (taskStep newRequest client c
          (taskStep newRequest client c TaskState.ready file).1
          (taskStep newRequest client c TaskState.ready file).2).1
        (taskStep newRequest client c
          (taskStep newRequest client c TaskState.ready file).1
          (taskStep newRequest client c TaskState.ready file).2).2
      = (TaskState.sent (fetchChunk newRequest client c file).2,
          (fetchChunk newRequest client c file).1) := by
  cases newRequest with
  | error err => simp [taskStep, fetchChunk]
  | ok u =>
    cases hresp : client (Request.getRange c.Start c.End) with
    | error err => simp [taskStep, fetchChunk, hresp]
    | ok resp =>
      by_cases hst : resp.StatusCode = 206
      · by_cases hneg : c.Start < 0
        · simp [taskStep, fetchChunk, hresp, hst, OsFile.Seek, hneg]
        · cases hbe : resp.BodyErr with
          | none => simp [taskStep, fetchChunk, hresp, hst, OsFile.Seek, hneg, ioCopy, hbe]
          | some e => simp [taskStep, fetchChunk, hresp, hst, OsFile.Seek, hneg, ioCopy, hbe]
      · simp [taskStep, fetchChunk, hresp, hst]

end GoGet
